import Mathlib

/-!
Shallow embedding of the multi-document embedding search engine
(src/cache_manager.py, src/embedder.py, src/search_engine.py, src/api.py,
src/utils.py) together with proofs about its cache coherence, normalization,
ranking and error-handling behaviour.

Modelling conventions:
* numpy float32 vectors are lists of reals; the float32 casts
  (`np.array(e, dtype=np.float32)`, `.astype('float32')`) are the identity;
* the external collaborators (the SHA-256 digest, the sentence-transformer
  model, the NLTK stop-word corpus and the wall clock) are parameters,
  gathered in the `Deps` structure;
* the sqlite table of `CacheManager` is a list of rows with `doc_id` as the
  primary key; `INSERT OR REPLACE` removes any row with the same key;
* Python exceptions are `Except` errors.
-/

set_option maxHeartbeats 1000000

/-- Embedding vectors: numpy float32 arrays modelled as lists of reals. -/
abbrev Vec := List ℝ

/-- External collaborators of the core engine, modelled as parameters:
the SHA-256 digest (an arbitrary deterministic digest function), the
sentence-transformer model (an arbitrary text-to-vector function; batch
encoding applies it pointwise), its output dimension, the NLTK stop-word
list, and the wall-clock reading used by `now_iso`. -/
structure Deps where
  sha256 : String → String
  provider : String → Vec
  dim : ℕ
  stopwords : List String
  now : String

/-- One row of the sqlite `embeddings` table (cache_manager.py `_init_db`). -/
structure CacheRow where
  doc_id : String
  filename : String
  hash : String
  embedding : Vec
  updated_at : String

/-- The sqlite `embeddings` table, `doc_id` being the primary key. -/
abbrev Cache := List CacheRow

/-- `CacheManager.get`: `SELECT ... FROM embeddings WHERE doc_id=?`. -/
def CacheManager.get (c : Cache) (d : String) : Option CacheRow :=
  c.find? (fun r => r.doc_id == d)

/-- `CacheManager.upsert`: `INSERT OR REPLACE` keyed by `doc_id`; the whole
record `(doc_id, filename, hash, embedding, updated_at)` is written by one
statement. -/
def CacheManager.upsert (c : Cache) (d fn hv : String) (emb : Vec) (now : String) : Cache :=
  ⟨d, fn, hv, emb, now⟩ :: c.filter (fun r => r.doc_id != d)

/-- A regex word character for the pattern `\b\w+\b` (ASCII model of `\w`). -/
def isWordChar (c : Char) : Bool := c.isAlphanum || c == '_'

/-- `TOKEN_RE.findall`: the maximal runs of word characters. -/
def wordRuns (s : String) : List String :=
  ((s.toList.splitOnP (fun c => !isWordChar c)).map (fun l => String.mk l)).filter
    (fun w => w ≠ "")

/-- utils.tokenize: lowercase word tokens with stop-words removed. -/
def tokenize (stop : List String) (text : String) : List String :=
  (wordRuns s.toLower).filter (fun t => !stop.contains t)
where s := text

/-- Sum of squares of the components of a vector. -/
def l2normSq (v : Vec) : ℝ := (v.map (fun x => x * x)).sum

/-- `np.linalg.norm`: the L2 norm. -/
noncomputable def l2norm (v : Vec) : ℝ := Real.sqrt (l2normSq v)

/-- The literal `1e-9` used as the zero-guard in search_engine.py. -/
noncomputable def eps1e9 : ℝ := 1 / 10 ^ 9

/-- Denominator used for a fallback index row: `norms[norms == 0] = 1e-9`
(build_index lines 87-88). -/
noncomputable def fallbackDenom (v : Vec) : ℝ := if l2norm v = 0 then eps1e9 else l2norm v

/-- build_index fallback branch (lines 86-89): each row is divided by its
clamped norm. -/
noncomputable def normalizeRowFallback (v : Vec) : Vec :=
  v.map (fun x => x / fallbackDenom v)

/-- `faiss.normalize_L2` on one row: scales by the reciprocal norm unless the
norm is zero (`fvec_renorm_L2` only rescales rows of positive squared norm). -/
noncomputable def normalizeFaissRow (v : Vec) : Vec :=
  if l2norm v = 0 then v else v.map (fun x => x / l2norm v)

/-- search lines 97 and 102: `q_emb / (np.linalg.norm(q_emb) + 1e-9)`. -/
noncomputable def normalizeQuery (v : Vec) : Vec :=
  v.map (fun x => x / (l2norm v + eps1e9))

/-- The SearchEngine instance state (`__init__` fields after `load_docs`):
`doc_texts` is the insertion-ordered doc_id ↦ cleaned-text dict, `doc_meta`
keeps each doc's filename, and the remaining fields mirror those written by
`build_index`. The sqlite cache is part of the state. -/
structure SearchEngine where
  doc_texts : List (String × String)
  doc_meta : List (String × String)
  embeddings : Option (List Vec)
  doc_ids : List String
  index : Option (List Vec)
  use_faiss : Bool
  cache : Cache

/-- Python dict lookup over an association list with unique keys. -/
def dictGet (l : List (String × String)) (k : String) : Option String :=
  (l.find? (fun p => p.1 == k)).map (fun p => p.2)

/-- `self.doc_meta[doc_id]['filename']` (present for every loaded doc). -/
def SearchEngine.metaFilename (e : SearchEngine) (d : String) : String :=
  (dictGet e.doc_meta d).getD ""

/-- build_index line 58: `cache_row and cache_row['hash'] == current_hash and
not force_recompute`. -/
def validCached (c : Cache) (force : Bool) (sha : String → String) (d t : String) : Bool :=
  match CacheManager.get c d with
  | some row => row.hash == sha t && !force
  | none => false

/-- The cache-miss documents, in `doc_texts` iteration order (lines 55-64). -/
def missDocs (ext : Deps) (force : Bool) (c : Cache) (docs : List (String × String)) :
    List (String × String) :=
  docs.filter (fun p => !validCached c force ext.sha256 p.1 p.2)

/-- The assembled per-document embedding list (lines 55-71): the cached vector
for a valid-cached document, otherwise the provider's output for its text
(`computed[j]`, the batch encode being modelled pointwise). -/
def embListOf (ext : Deps) (force : Bool) (c : Cache) (docs : List (String × String)) :
    List Vec :=
  docs.map (fun p =>
    match CacheManager.get c p.1 with
    | some row =>
      if row.hash == ext.sha256 p.2 && !force then row.embedding else ext.provider p.2
    | none => ext.provider p.2)

/-- Errors build_index can raise. -/
inductive BuildErr
  | vstackEmpty
deriving DecidableEq

/-- `SearchEngine.build_index`: cache-aware embedding assembly, cache upserts
for the misses, `np.vstack`, and index construction (accelerated or fallback).
Returns the new engine state together with the list of batch calls made to the
embedding provider: one call carrying all miss texts in order when there is at
least one miss, none otherwise (lines 66-71). `np.vstack` of an empty list
raises `ValueError` (no documents loaded); in that case there were no misses,
so the cache was not written before the exception. -/
noncomputable def SearchEngine.build_index (ext : Deps) (e : SearchEngine) (force : Bool) :
    Except BuildErr (SearchEngine × List (List String)) :=
  let docs := e.doc_texts
  let ids := docs.map (fun p => p.1)
  let embL := embListOf ext force e.cache docs
  let misses := missDocs ext force e.cache docs
  let calls := if misses.isEmpty then ([] : List (List String)) else [misses.map (fun p => p.2)]
  let cache' := misses.foldl
    (fun c p =>
      CacheManager.upsert c p.1 (e.metaFilename p.1) (ext.sha256 p.2) (ext.provider p.2) ext.now)
    e.cache
  if embL.isEmpty then
    Except.error BuildErr.vstackEmpty
  else if e.use_faiss then
    let normd := embL.map normalizeFaissRow
    Except.ok
      ({ e with
          cache := cache'
          embeddings := some normd
          doc_ids := ids
          index := some normd }, calls)
  else
    let normd := embL.map normalizeRowFallback
    Except.ok
      ({ e with
          cache := cache'
          embeddings := some normd
          doc_ids := ids
          index := none }, calls)

/-- Python exceptions `SearchEngine.search` can raise. -/
inductive EngineErr
  | attrNoneIndex
  | typeNoneEmbeddings
  | indexError
  | keyError
  | faissBadK
deriving DecidableEq

/-- One entry of the result list built by search (lines 121-130). -/
structure SearchResult where
  doc_id : String
  score : ℝ
  preview : String
  token_overlap : ℕ
  overlap_ratio : ℚ
  matched_tokens : List String

/-- Python list indexing `l[i]`: negative indices wrap around from the end;
indices out of range raise `IndexError`. -/
def pyGet (l : List α) (i : ℤ) : Option α :=
  if 0 ≤ i then l.get? i.toNat
  else if (-i).toNat ≤ l.length then l.get? (l.length - (-i).toNat)
  else none

/-- Python slice `l[:k]` (a negative bound counts from the end). -/
def pySlice (l : List α) (k : ℤ) : List α :=
  if 0 ≤ k then l.take k.toNat
  else l.take (l.length - min ((-k).toNat) l.length)

/-- Python `round(x, 3)` (banker's rounding, on the exact rational value). -/
def pyRound3 (x : ℚ) : ℚ :=
  let y := x * 1000
  let f : ℤ := ⌊y⌋
  let r := y - f
  let n : ℤ := if r < 1/2 then f else if 1/2 < r then f + 1 else if f % 2 = 0 then f else f + 1
  (n : ℚ) / 1000

/-- search lines 108-130 for a single hit: preview and lexical-overlap
diagnostics. Python's sets are modelled by first-occurrence deduplication. -/
def mkResult (ext : Deps) (q_tokens : List String) (d text : String) (s : ℝ) : SearchResult :=
  let doc_tokens := (tokenize ext.stopwords text).dedup
  let overlap := q_tokens.filter (fun t => doc_tokens.contains t)
  let ratio : ℚ := if q_tokens.length = 0 then 0 else (overlap.length : ℚ) / q_tokens.length
  { doc_id := d
    score := s
    preview := if text.length > 200 then text.take 200 ++ "..." else text
    token_overlap := overlap.length
    overlap_ratio := pyRound3 ratio
    matched_tokens := overlap.take 10 }

/-- The result loop of search (lines 107-130); Python raises at the first bad
index or missing key. -/
def buildResults (ext : Deps) (e : SearchEngine) (q_tokens : List String) :
    List (ℤ × ℝ) → Except EngineErr (List SearchResult)
  | [] => Except.ok []
  | (i, s) :: rest =>
    match pyGet e.doc_ids i with
    | none => Except.error EngineErr.indexError
    | some d =>
      match dictGet e.doc_texts d with
      | none => Except.error EngineErr.keyError
      | some text =>
        match buildResults ext e q_tokens rest with
        | Except.error er => Except.error er
        | Except.ok rs => Except.ok (mkResult ext q_tokens d text s :: rs)

/-- `np.dot` of two equal-length rows. -/
def dot (a b : Vec) : ℝ := ((a.zip b).map (fun p => p.1 * p.2)).sum

/-- `np.argsort(-sims)`: indices ordered by descending value. numpy's default
quicksort fixes no tie order (it is not a stable sort); this model uses an
insertion argsort, whose lowest-index-first tie order is a modelling choice —
only the sortedness and permutation properties of this definition are faithful
to the source. -/
noncomputable def argsortDesc (sims : List ℝ) : List ℕ :=
  List.insertionSort (fun i j => sims.getD j 0 ≤ sims.getD i 0) (List.range sims.length)

/-- Python `str.strip()`: leading and trailing whitespace removed. -/
def pyStrip (s : String) : String :=
  String.mk (((s.toList.dropWhile Char.isWhitespace).reverse.dropWhile
    Char.isWhitespace).reverse)

/-- `Embedder.embed_one`: the zero vector for blank text, else the model
encoding (embedder.py lines 40-47). -/
def embedOne (ext : Deps) (text : String) : Vec :=
  if pyStrip text = "" then List.replicate ext.dim 0 else ext.provider text

/-- `faiss.IndexFlatIP.search` labels: exact top-k by inner product; when `k`
exceeds the number of stored rows the result is padded with label `-1`
(documented FAISS behaviour for missing neighbours). -/
noncomputable def faissTopkIdx (sims : List ℝ) (k : ℕ) : List ℤ :=
  ((argsortDesc sims).take k).map Int.ofNat ++
    List.replicate (k - min k sims.length) (-1)

/-- Stand-in for the large negative distance FAISS writes in padded slots. -/
noncomputable def faissPadScore : ℝ := -(2 ^ 128)

/-- `faiss.IndexFlatIP.search` distances, padded alongside the labels. -/
noncomputable def faissTopkScores (sims : List ℝ) (k : ℕ) : List ℝ :=
  ((argsortDesc sims).take k).map (fun n => sims.getD n 0) ++
    List.replicate (k - min k sims.length) faissPadScore

/-- `SearchEngine.search` (lines 92-132). The body only writes locals, so the
engine state is read-only and not part of the result type; in particular the
cache is neither read nor written here. `top_k` keeps Python's `int` semantics
for the fallback slice; FAISS itself requires `k ≥ 1`. -/
noncomputable def SearchEngine.search (ext : Deps) (e : SearchEngine) (query : String)
    (top_k : ℤ) : Except EngineErr (List SearchResult) :=
  let q_emb := embedOne ext query
  let q_tokens := (tokenize ext.stopwords query).dedup
  if e.use_faiss then
    match e.index with
    | none => Except.error EngineErr.attrNoneIndex
    | some mat =>
      if top_k ≤ 0 then Except.error EngineErr.faissBadK
      else
        let q := normalizeQuery q_emb
        let sims := mat.map (fun row => dot row q)
        let idxs := faissTopkIdx sims top_k.toNat
        let scores := faissTopkScores sims top_k.toNat
        buildResults ext e q_tokens (idxs.zip scores)
  else
    match e.embeddings with
    | none => Except.error EngineErr.typeNoneEmbeddings
    | some mat =>
      let q := normalizeQuery q_emb
      let sims := mat.map (fun row => dot row q)
      let idxs := pySlice (argsortDesc sims) top_k
      let scores := idxs.map (fun i => sims.getD i 0)
      buildResults ext e q_tokens ((idxs.map Int.ofNat).zip scores)

/-- A cache state in which every row's `hash` is the digest of the exact text
whose provider output is the stored `embedding` (the §3 CacheEntry pairing
invariant). -/
def CacheGood (sha : String → String) (prov : String → Vec) (c : Cache) : Prop :=
  ∀ row ∈ c, ∃ t, row.hash = sha t ∧ row.embedding = prov t

/-- HTTP-level outcomes of the api.py `/search` handler. -/
inductive HErr
  | notInitialized
  | emptyQuery
  | badTopK
  | internal (e : EngineErr)
deriving DecidableEq

/-- The JSON body returned by a successful `/search` call. -/
structure ApiResp where
  query : String
  top_k : ℤ
  results : List SearchResult
  count : ℕ

/-- api.py `POST /search` handler (lines 95-118). Besides the response it
returns the number of model-encoding invocations made while handling the
request: the rejecting branches return before `engine.search` is reached, so
they make none and leave the engine (cache and index included) untouched. -/
noncomputable def apiSearch (ext : Deps) (engine : Option SearchEngine) (query : String)
    (top_k : ℤ) : Except HErr ApiResp × ℕ :=
  match engine with
  | none => (Except.error HErr.notInitialized, 0)
  | some e =>
    if pyStrip query = "" then (Except.error HErr.emptyQuery, 0)
    else if top_k < 1 then (Except.error HErr.badTopK, 0)
    else
      match e.search ext query top_k with
      | Except.error er => (Except.error (HErr.internal er), 1)
      | Except.ok rs => (Except.ok ⟨query, top_k, rs, rs.length⟩, 1)

/-- Concrete collaborators for witnesses: the digest is the identity stand-in,
the model encodes the texts "x" and "y" to the two unit axes and anything else
to the zero vector. -/
def depsXY : Deps :=
  { sha256 := id
    provider := fun t => if t = "x" then [1, 0] else if t = "y" then [0, 1] else [0, 0]
    dim := 2
    stopwords := []
    now := "t1" }

/-- Engine with one loaded document whose embedding is already validly cached. -/
def engCached : SearchEngine :=
  { doc_texts := [("a", "x")]
    doc_meta := [("a", "a.txt")]
    embeddings := none
    doc_ids := []
    index := none
    use_faiss := false
    cache := [⟨"a", "a.txt", "x", [7], "t0"⟩] }

/-- Engine with two loaded documents and an empty cache (fallback backend). -/
def engFresh : SearchEngine :=
  { doc_texts := [("a", "x"), ("b", "y")]
    doc_meta := [("a", "a.txt"), ("b", "b.txt")]
    embeddings := none
    doc_ids := []
    index := none
    use_faiss := false
    cache := [] }

/-- Engine with two loaded documents and an empty cache (faiss backend). -/
def engFreshFaiss : SearchEngine :=
  { engFresh with use_faiss := true }

/-- Engine with no loaded documents at all. -/
def engNoDocs : SearchEngine :=
  { doc_texts := []
    doc_meta := []
    embeddings := none
    doc_ids := []
    index := none
    use_faiss := false
    cache := [] }

/-- Engine in the Loaded state: documents loaded, `build_index` never called
(so `embeddings` and `index` are still None from `__init__`). -/
def engLoaded : SearchEngine :=
  { doc_texts := [("a", "x")]
    doc_meta := [("a", "a.txt")]
    embeddings := none
    doc_ids := []
    index := none
    use_faiss := false
    cache := [] }

/-- The faiss-backend engine state produced by `engFreshFaiss.build_index`
(see `engFaissBuilt_reachable`): the two rows are the unit axes, which faiss
normalization keeps, and the cache holds both freshly upserted rows (later
upsert first). -/
def engFaissBuilt : SearchEngine :=
  { doc_texts := [("a", "x"), ("b", "y")]
    doc_meta := [("a", "a.txt"), ("b", "b.txt")]
    embeddings := some [[1, 0], [0, 1]]
    doc_ids := ["a", "b"]
    index := some [[1, 0], [0, 1]]
    use_faiss := true
    cache := [⟨"b", "b.txt", "y", [0, 1], "t1"⟩, ⟨"a", "a.txt", "x", [1, 0], "t1"⟩] }

/-- A fallback-backend engine state with two indexed documents. -/
def engFallbackBuilt : SearchEngine :=
  { doc_texts := [("a", "x"), ("b", "y")]
    doc_meta := [("a", "a.txt"), ("b", "b.txt")]
    embeddings := some [[1, 0], [0, 1]]
    doc_ids := ["a", "b"]
    index := none
    use_faiss := false
    cache := [⟨"b", "b.txt", "y", [0, 1], "t1"⟩, ⟨"a", "a.txt", "x", [1, 0], "t1"⟩] }

/-- The engine produced by rebuilding `engCached` (its one document is
valid-cached, so no provider call and no cache write happen). -/
noncomputable def engCachedBuilt : SearchEngine :=
  { engCached with
      embeddings := some [normalizeRowFallback [7]]
      doc_ids := ["a"]
      index := none }

/-! Helper lemmas about the cache and dictionaries. -/

theorem find?_filter_of_imp {α : Type} {p q : α → Bool} (l : List α)
    (h : ∀ a, p a = true → q a = true) : (l.filter q).find? p = l.find? p := by
  induction l with
  | nil => rfl
  | cons a t ih =>
    by_cases hq : q a = true
    · rw [List.filter_cons_of_pos hq]
      by_cases hp : p a = true
      · rw [List.find?_cons_of_pos _ hp, List.find?_cons_of_pos _ hp]
      · rw [List.find?_cons_of_neg _ hp, List.find?_cons_of_neg _ hp, ih]
    · rw [List.filter_cons_of_neg hq, List.find?_cons_of_neg _ fun hp => hq (h a hp), ih]

theorem CacheManager.get_upsert_self (c : Cache) (d fn hv : String) (emb : Vec)
    (now : String) :
    CacheManager.get (CacheManager.upsert c d fn hv emb now) d = some ⟨d, fn, hv, emb, now⟩ := by
  unfold CacheManager.get CacheManager.upsert
  rw [List.find?_cons_of_pos _ (by simp)]

theorem CacheManager.get_upsert_other (c : Cache) {d d' : String} (fn hv : String)
    (emb : Vec) (now : String) (h : d ≠ d') :
    CacheManager.get (CacheManager.upsert c d' fn hv emb now) d = CacheManager.get c d := by
  unfold CacheManager.get CacheManager.upsert
  rw [List.find?_cons_of_neg _ (by simpa using fun he => h he.symm)]
  exact find?_filter_of_imp c fun r hr => by
    simp only [beq_iff_eq] at hr
    simp [hr, bne_iff_ne, h]

theorem dict_pair_unique {l : List (String × String)} (hnd : (l.map Prod.fst).Nodup)
    {d t t' : String} (h1 : (d, t) ∈ l) (h2 : (d, t') ∈ l) : t = t' := by
  induction l with
  | nil => cases h1
  | cons a rest ih =>
    rw [List.map_cons, List.nodup_cons] at hnd
    rcases List.mem_cons.1 h1 with ha1 | h1'
    · rcases List.mem_cons.1 h2 with ha2 | h2'
      · rw [← ha1] at ha2
        exact (Prod.mk.injEq _ _ _ _ ▸ ha2).2.symm
      · exact absurd (List.mem_map_of_mem Prod.fst h2') (by rw [← ha1] at hnd; exact hnd.1)
    · rcases List.mem_cons.1 h2 with ha2 | h2'
      · exact absurd (List.mem_map_of_mem Prod.fst h1') (by rw [← ha2] at hnd; exact hnd.1)
      · exact ih hnd.2 h1' h2'

theorem validCached_true_of {c : Cache} {sha : String → String} {d t : String}
    {row : CacheRow} (hrow : CacheManager.get c d = some row)
    (hhash : row.hash = sha t) : validCached c false sha d t = true := by
  unfold validCached
  rw [hrow]
  simp [hhash]

/-- C1: for every document whose stored cache entry matches the sha256 of its
current text (and `force_recompute` is false), `build_index` places the cached
embedding bit-identically at that document's position of the assembled
embedding list, the document is not among the cache-miss documents handed to
the embedding provider, and the provider receives exactly one batched call
holding the cache-miss texts in document order (or no call at all when
everything is cached). -/
theorem cache_coherence_build (ext : Deps) (e : SearchEngine) (i : ℕ) (d t : String)
    (row : CacheRow)
    (hnd : (e.doc_texts.map Prod.fst).Nodup)
    (hi : e.doc_texts.get? i = some (d, t))
    (hrow : CacheManager.get e.cache d = some row)
    (hhash : row.hash = ext.sha256 t) :
    (embListOf ext false e.cache e.doc_texts).get? i = some row.embedding ∧
      d ∉ (missDocs ext false e.cache e.doc_texts).map Prod.fst ∧
      ∀ res, e.build_index ext false = Except.ok res →
        res.2 = if (missDocs ext false e.cache e.doc_texts).isEmpty then []
                else [(missDocs ext false e.cache e.doc_texts).map Prod.snd] := by
  refine ⟨?_, ?_, ?_⟩
  · unfold embListOf
    rw [List.get?_map, hi]
    simp [hrow, hhash]
  · intro hmem
    rcases List.mem_map.1 hmem with ⟨p, hp, hp1⟩
    rw [missDocs, List.mem_filter] at hp
    obtain ⟨hpmem, hpmiss⟩ := hp
    have hdt : (d, t) ∈ e.doc_texts := List.get?_mem hi
    have : p = (d, p.2) := by rw [← hp1]
    rw [this] at hpmem
    have ht2 : p.2 = t := dict_pair_unique hnd hpmem hdt
    rw [ht2] at hpmem
    have hvt := validCached_true_of hrow hhash
    rw [hp1, ht2, hvt] at hpmiss
    simp at hpmiss
  · intro res hres
    unfold SearchEngine.build_index at hres
    simp only [] at hres
    split at hres
    · cases hres
    · split at hres
      · cases hres
        rfl
      · cases hres
        rfl

/-- Closed witness for the C1 theorem at a concrete engine with one validly
cached document. -/
theorem cache_coherence_build_witness :
    (embListOf depsXY false engCached.cache engCached.doc_texts).get? 0 =
        some ([7] : Vec) ∧
      "a" ∉ (missDocs depsXY false engCached.cache engCached.doc_texts).map Prod.fst := by
  have h := cache_coherence_build depsXY engCached 0 "a" "x" ⟨"a", "a.txt", "x", [7], "t0"⟩
    (by simp [engCached]) rfl rfl rfl
  exact ⟨h.1, h.2.1⟩

theorem cacheGood_upsert {sha : String → String} {prov : String → Vec} {c : Cache}
    (h : CacheGood sha prov c) (d fn t now : String) :
    CacheGood sha prov (CacheManager.upsert c d fn (sha t) (prov t) now) := by
  intro row hrow
  rw [CacheManager.upsert, List.mem_cons] at hrow
  rcases hrow with rfl | hmem
  · exact ⟨t, rfl, rfl⟩
  · exact h row (List.mem_of_mem_filter hmem)

theorem cacheGood_foldl (ext : Deps) (fn : String → String) {c : Cache}
    (h : CacheGood ext.sha256 ext.provider c) (l : List (String × String)) :
    CacheGood ext.sha256 ext.provider
      (l.foldl (fun c p => CacheManager.upsert c p.1 (fn p.1) (ext.sha256 p.2)
        (ext.provider p.2) ext.now) c) := by
  induction l generalizing c with
  | nil => exact h
  | cons a rest ih => exact ih (cacheGood_upsert h a.1 (fn a.1) a.2 ext.now)

/-- C7: upsert writes the `(hash, embedding)` pair atomically in one record,
and every `build_index` upserts the digest computed from the very text it sent
to the provider, so the pairing invariant `CacheGood` — each stored hash is
the digest of the exact text whose provider output is the stored embedding —
is preserved by any `build_index` call, with either value of
`force_recompute`. -/
theorem cache_pairing_invariant (ext : Deps) (e : SearchEngine) (force : Bool)
    (h : CacheGood ext.sha256 ext.provider e.cache) :
    (∀ res, e.build_index ext force = Except.ok res →
        CacheGood ext.sha256 ext.provider res.1.cache) ∧
      ∀ (c : Cache) (d fn hv : String) (emb : Vec) (now : String),
        CacheManager.get (CacheManager.upsert c d fn hv emb now) d =
          some ⟨d, fn, hv, emb, now⟩ := by
  constructor
  · intro res hres
    unfold SearchEngine.build_index at hres
    simp only [] at hres
    split at hres
    · cases hres
    · split at hres
      · cases hres
        exact cacheGood_foldl ext e.metaFilename h _
      · cases hres
        exact cacheGood_foldl ext e.metaFilename h _
  · exact fun c d fn hv emb now => CacheManager.get_upsert_self c d fn hv emb now

/-- Closed witness for the C7 theorem at a concrete engine with an empty cache
and one document. -/
theorem cache_pairing_invariant_witness :
    (∀ res, engFresh.build_index depsXY false = Except.ok res →
        CacheGood depsXY.sha256 depsXY.provider res.1.cache) ∧
      ∀ (c : Cache) (d fn hv : String) (emb : Vec) (now : String),
        CacheManager.get (CacheManager.upsert c d fn hv emb now) d =
          some ⟨d, fn, hv, emb, now⟩ :=
  cache_pairing_invariant depsXY engFresh false (by intro row hrow; cases hrow)

theorem get_upsertFoldl_not_mem (ext : Deps) (fnm : String → String)
    (l : List (String × String)) (c : Cache) (d : String) (h : d ∉ l.map Prod.fst) :
    CacheManager.get (l.foldl (fun c p => CacheManager.upsert c p.1 (fnm p.1)
        (ext.sha256 p.2) (ext.provider p.2) ext.now) c) d = CacheManager.get c d := by
  induction l generalizing c with
  | nil => rfl
  | cons a rest ih =>
    rw [List.map_cons] at h
    rw [List.foldl_cons, ih _ fun hm => h (List.mem_cons_of_mem _ hm)]
    exact CacheManager.get_upsert_other c (fnm a.1) _ _ _
      fun he => h (he ▸ List.mem_cons_self _ _)

theorem get_upsertFoldl_mem (ext : Deps) (fnm : String → String)
    {l : List (String × String)} {d t : String}
    (hnd : (l.map Prod.fst).Nodup) (hmem : (d, t) ∈ l) (c : Cache) :
    CacheManager.get (l.foldl (fun c p => CacheManager.upsert c p.1 (fnm p.1)
        (ext.sha256 p.2) (ext.provider p.2) ext.now) c) d =
      some ⟨d, fnm d, ext.sha256 t, ext.provider t, ext.now⟩ := by
  induction l generalizing c with
  | nil => cases hmem
  | cons a rest ih =>
    rw [List.map_cons, List.nodup_cons] at hnd
    rw [List.foldl_cons]
    rcases List.mem_cons.1 hmem with ha | hmem'
    · rw [← ha] at hnd ⊢
      rw [get_upsertFoldl_not_mem ext fnm rest _ d hnd.1]
      exact CacheManager.get_upsert_self c d (fnm d) (ext.sha256 t) (ext.provider t) ext.now
    · exact ih hnd.2 hmem' _

theorem not_mem_missDocs_of_validCached (ext : Deps) {docs : List (String × String)}
    {c : Cache} {d t : String} (hnd : (docs.map Prod.fst).Nodup)
    (hmem : (d, t) ∈ docs) (hvc : validCached c false ext.sha256 d t = true) :
    d ∉ (missDocs ext false c docs).map Prod.fst := by
  intro hin
  rcases List.mem_map.1 hin with ⟨p, hp, hp1⟩
  rw [missDocs, List.mem_filter] at hp
  obtain ⟨hpmem, hpmiss⟩ := hp
  have hpd : p = (d, p.2) := by rw [← hp1]
  rw [hpd] at hpmem
  have ht2 : p.2 = t := dict_pair_unique hnd hpmem hmem
  rw [hp1, ht2, hvc] at hpmiss
  simp at hpmiss

theorem mem_missDocs_of_not_validCached (ext : Deps) {docs : List (String × String)}
    {c : Cache} {d t : String} (hmem : (d, t) ∈ docs)
    (hvc : validCached c false ext.sha256 d t = false) :
    (d, t) ∈ missDocs ext false c docs :=
  List.mem_filter.2 ⟨hmem, by simp [hvc]⟩

theorem missDocs_ids_nodup (ext : Deps) (force : Bool) (c : Cache)
    {docs : List (String × String)} (hnd : (docs.map Prod.fst).Nodup) :
    ((missDocs ext force c docs).map Prod.fst).Nodup :=
  hnd.sublist ((List.filter_sublist _).map Prod.fst)

theorem validCached_elim {c : Cache} {sha : String → String} {d t : String}
    (h : validCached c false sha d t = true) :
    ∃ row, CacheManager.get c d = some row ∧ row.hash = sha t := by
  unfold validCached at h
  rcases hg : CacheManager.get c d with _ | row
  · rw [hg] at h; cases h
  · rw [hg] at h
    simp only [Bool.not_false, Bool.and_true, beq_iff_eq] at h
    exact ⟨row, rfl, h⟩

theorem build_index_parts (ext : Deps) (e : SearchEngine) {res : SearchEngine × List (List String)}
    (hres : e.build_index ext false = Except.ok res) :
    res.1.cache = (missDocs ext false e.cache e.doc_texts).foldl
        (fun c p => CacheManager.upsert c p.1 (e.metaFilename p.1)
          (ext.sha256 p.2) (ext.provider p.2) ext.now) e.cache ∧
      res.1.doc_texts = e.doc_texts := by
  unfold SearchEngine.build_index at hres
  simp only [] at hres
  split at hres
  · cases hres
  · split at hres
    · cases hres
      exact ⟨rfl, rfl⟩
    · cases hres
      exact ⟨rfl, rfl⟩

/-- C10: `build_index` never mutates embedding vectors already stored in the
cache. For a still-valid document the whole cache row is returned unchanged by
`get`; for a cache miss the freshly written row holds the raw (un-normalized)
provider output — normalization only touches the freshly stacked matrix — and
the entry written by one build is returned unchanged by `get` in a later build
whose text is unchanged. -/
theorem build_index_cache_frame (ext : Deps) (e : SearchEngine) (d t : String)
    (hnd : (e.doc_texts.map Prod.fst).Nodup) (hmem : (d, t) ∈ e.doc_texts) :
    ∀ res, e.build_index ext false = Except.ok res →
      res.1.doc_texts = e.doc_texts ∧
      (validCached e.cache false ext.sha256 d t = true →
        CacheManager.get res.1.cache d = CacheManager.get e.cache d) ∧
      (validCached e.cache false ext.sha256 d t = false →
        CacheManager.get res.1.cache d =
          some ⟨d, e.metaFilename d, ext.sha256 t, ext.provider t, ext.now⟩) ∧
      ∀ res2, res.1.build_index ext false = Except.ok res2 →
        CacheManager.get res2.1.cache d = CacheManager.get res.1.cache d := by
  intro res hres
  obtain ⟨hc, hdocs⟩ := build_index_parts ext e hres
  have hkeep : validCached e.cache false ext.sha256 d t = true →
      CacheManager.get res.1.cache d = CacheManager.get e.cache d := by
    intro hvc
    rw [hc]
    exact get_upsertFoldl_not_mem ext e.metaFilename _ _ d
      (not_mem_missDocs_of_validCached ext hnd hmem hvc)
  have hmiss : validCached e.cache false ext.sha256 d t = false →
      CacheManager.get res.1.cache d =
        some ⟨d, e.metaFilename d, ext.sha256 t, ext.provider t, ext.now⟩ := by
    intro hvc
    rw [hc]
    exact get_upsertFoldl_mem ext e.metaFilename
      (missDocs_ids_nodup ext false e.cache hnd)
      (mem_missDocs_of_not_validCached ext hmem hvc) e.cache
  refine ⟨hdocs, hkeep, hmiss, ?_⟩
  intro res2 hres2
  obtain ⟨hc2, _⟩ := build_index_parts ext res.1 hres2
  have hval2 : validCached res.1.cache false ext.sha256 d t = true := by
    rcases hb : validCached e.cache false ext.sha256 d t with _ | _
    · exact validCached_true_of (hmiss hb) rfl
    · obtain ⟨row, hget, hhash⟩ := validCached_elim hb
      exact validCached_true_of (by rw [hkeep hb, hget]) hhash
  rw [hc2]
  exact get_upsertFoldl_not_mem ext res.1.metaFilename _ _ d
    (not_mem_missDocs_of_validCached ext (hdocs ▸ hnd) (hdocs ▸ hmem) hval2)

/-- Closed witness for the C10 theorem at a concrete engine with one validly
cached document: the rebuild leaves the cached row untouched. -/
theorem build_index_cache_frame_witness :
    engCached.build_index depsXY false = Except.ok (engCachedBuilt, []) ∧
      CacheManager.get engCachedBuilt.cache "a" = CacheManager.get engCached.cache "a" := by
  have hres : engCached.build_index depsXY false = Except.ok (engCachedBuilt, []) := rfl
  have h := build_index_cache_frame depsXY engCached "a" "x" (by simp [engCached])
    (by simp [engCached]) (engCachedBuilt, []) hres
  exact ⟨hres, h.2.1 rfl⟩

/-- C2: at the program's search entry point (the api.py handler, where this
validation lives), a query that is empty or pure whitespace, or a `top_k < 1`,
is rejected as a caller-input error (HTTP 400) before `engine.search` is
reached: the embedding provider is not invoked (the invocation count is 0) and
the engine — whose state, cache and index included, is only passed to
`engine.search` — is untouched. -/
theorem api_rejects_bad_input (ext : Deps) (e : SearchEngine) (query : String)
    (top_k : ℤ) (hbad : pyStrip query = "" ∨ top_k < 1) :
    apiSearch ext (some e) query top_k =
      (Except.error (if pyStrip query = "" then HErr.emptyQuery else HErr.badTopK), 0) := by
  unfold apiSearch
  rcases hbad with hq | hk
  · simp [hq]
  · by_cases hq : pyStrip query = ""
    · simp [hq]
    · simp [hq, hk]

/-- Closed witness for the C2 theorem: a whitespace query and a zero `top_k`
are both rejected with no provider invocation. -/
theorem api_rejects_bad_input_witness :
    apiSearch depsXY (some engCached) "   " 5 = (Except.error HErr.emptyQuery, 0) ∧
      apiSearch depsXY (some engCached) "cats" 0 = (Except.error HErr.badTopK, 0) := by
  constructor
  · have h := api_rejects_bad_input depsXY engCached "   " 5 (Or.inl (by decide))
    rwa [if_pos (by decide)] at h
  · have h := api_rejects_bad_input depsXY engCached "cats" 0 (Or.inr (by decide))
    rwa [if_neg (by decide)] at h

/-- C8 (amended): `build_index` on an empty document set does not yield an
empty index — it raises the `ValueError` of `np.vstack` applied to an empty
list, whatever the value of `force_recompute`. -/
theorem build_index_empty_raises (ext : Deps) (e : SearchEngine) (force : Bool)
    (h : e.doc_texts = []) :
    e.build_index ext force = Except.error BuildErr.vstackEmpty := by
  unfold SearchEngine.build_index
  simp [h, embListOf, missDocs]

/-- Closed witness for the C8 theorem. -/
theorem build_index_empty_raises_witness :
    engNoDocs.build_index depsXY true = Except.error BuildErr.vstackEmpty :=
  build_index_empty_raises depsXY engNoDocs true rfl

/-- C8 counterexample to the claim as stated: with no loaded documents,
`build_index` errors instead of succeeding with an empty index. -/
theorem build_index_empty_counterexample :
    engNoDocs.build_index depsXY false = Except.error BuildErr.vstackEmpty := by
  unfold SearchEngine.build_index
  simp [engNoDocs, embListOf, missDocs]

/-- C9 (amended): an engine that was never initialized (the api.py global is
None) is reported as a configuration error (HTTP 503), an error class distinct
from both caller-input errors; but `SearchEngine.search` called in the
Uninitialized/Loaded engine-object state (no `build_index` yet, so `index` and
`embeddings` are still None) surfaces an unclassified Python exception
(`AttributeError` on the faiss path, `TypeError` on the fallback path) rather
than a distinct uninitialized-state report. -/
theorem uninitialized_error_classes (ext : Deps) (e : SearchEngine) (query : String)
    (top_k : ℤ) :
    (apiSearch ext none query top_k = (Except.error HErr.notInitialized, 0) ∧
      HErr.notInitialized ≠ HErr.emptyQuery ∧ HErr.notInitialized ≠ HErr.badTopK) ∧
      (e.use_faiss = true → e.index = none →
        e.search ext query top_k = Except.error EngineErr.attrNoneIndex) ∧
      (e.use_faiss = false → e.embeddings = none →
        e.search ext query top_k = Except.error EngineErr.typeNoneEmbeddings) := by
  refine ⟨⟨rfl, by decide, by decide⟩, ?_, ?_⟩
  · intro hf hi
    unfold SearchEngine.search
    simp [hf, hi]
  · intro hf he
    unfold SearchEngine.search
    simp [hf, he]

/-- Closed witness for the C9 theorem at a Loaded engine. -/
theorem uninitialized_error_classes_witness :
    apiSearch depsXY none "cat" 1 = (Except.error HErr.notInitialized, 0) ∧
      engLoaded.search depsXY "cat" 1 = Except.error EngineErr.typeNoneEmbeddings := by
  have h := uninitialized_error_classes depsXY engLoaded "cat" 1
  exact ⟨h.1.1, h.2.2 rfl rfl⟩

/-- C9 counterexample to the claim as stated: searching in the Loaded state
(documents loaded, `build_index` never called) is not reported as an
uninitialized-state error — it surfaces as an unclassified internal exception,
which the API handler wraps as a generic HTTP 500. -/
theorem search_loaded_unclassified :
    apiSearch depsXY (some engLoaded) "cat" 1 =
      (Except.error (HErr.internal EngineErr.typeNoneEmbeddings), 1) := by
  have hs : engLoaded.search depsXY "cat" 1 = Except.error EngineErr.typeNoneEmbeddings := by
    unfold SearchEngine.search
    simp [engLoaded]
  unfold apiSearch
  simp [hs, show ¬ pyStrip "cat" = "" by decide, show ¬ (1 : ℤ) < 1 by decide]

/-! Norm lemmas for the normalization claims. -/

theorem l2normSq_cons (a : ℝ) (t : List ℝ) : l2normSq (a :: t) = a * a + l2normSq t := by
  unfold l2normSq
  simp

theorem l2normSq_nonneg (v : Vec) : 0 ≤ l2normSq v :=
  List.sum_nonneg fun y hy => by
    rcases List.mem_map.1 hy with ⟨x, _, rfl⟩
    exact mul_self_nonneg x

theorem l2normSq_eq_zero_iff (v : Vec) : l2normSq v = 0 ↔ ∀ x ∈ v, x = 0 := by
  induction v with
  | nil => simp [l2normSq]
  | cons a t ih =>
    rw [l2normSq_cons, add_eq_zero_iff_of_nonneg (mul_self_nonneg a) (l2normSq_nonneg t)]
    simp [mul_self_eq_zero, ih]

theorem l2norm_nonneg (v : Vec) : 0 ≤ l2norm v := Real.sqrt_nonneg _

theorem l2norm_eq_zero_iff (v : Vec) : l2norm v = 0 ↔ ∀ x ∈ v, x = 0 := by
  unfold l2norm
  rw [Real.sqrt_eq_zero (l2normSq_nonneg v), l2normSq_eq_zero_iff]

theorem l2norm_pos_of_ne (v : Vec) (h : ¬ ∀ x ∈ v, x = 0) : 0 < l2norm v :=
  lt_of_le_of_ne (l2norm_nonneg v) fun he => h ((l2norm_eq_zero_iff v).1 he.symm)

theorem l2normSq_map_div (v : Vec) (c : ℝ) :
    l2normSq (v.map fun x => x / c) = l2normSq v / (c * c) := by
  induction v with
  | nil => simp [l2normSq]
  | cons a t ih =>
    rw [List.map_cons, l2normSq_cons, l2normSq_cons, ih, div_mul_div_comm, div_add_div_same]

theorem l2norm_map_div (v : Vec) {c : ℝ} (hc : 0 < c) :
    l2norm (v.map fun x => x / c) = l2norm v / c := by
  unfold l2norm
  rw [l2normSq_map_div, Real.sqrt_div (l2normSq_nonneg v), Real.sqrt_mul_self hc.le]

theorem eps1e9_pos : (0 : ℝ) < eps1e9 := by
  unfold eps1e9
  positivity

theorem normalizeRowFallback_norm (v : Vec) :
    fallbackDenom v ≠ 0 ∧
      ((¬ ∀ x ∈ v, x = 0) → l2norm (normalizeRowFallback v) = 1) ∧
      ((∀ x ∈ v, x = 0) → normalizeRowFallback v = v.map (fun x => x / eps1e9) ∧
        l2norm (normalizeRowFallback v) = 0) := by
  refine ⟨?_, ?_, ?_⟩
  · unfold fallbackDenom
    split
    · exact eps1e9_pos.ne'
    · assumption
  · intro hnz
    have hpos : 0 < l2norm v := l2norm_pos_of_ne v hnz
    unfold normalizeRowFallback fallbackDenom
    rw [if_neg hpos.ne', l2norm_map_div v hpos, div_self hpos.ne']
  · intro hz
    have hn : l2norm v = 0 := (l2norm_eq_zero_iff v).2 hz
    have hform : normalizeRowFallback v = v.map fun x => x / eps1e9 := by
      unfold normalizeRowFallback fallbackDenom
      rw [if_pos hn]
    refine ⟨hform, ?_⟩
    rw [hform]
    refine (l2norm_eq_zero_iff _).2 fun x hx => ?_
    rcases List.mem_map.1 hx with ⟨y, hy, rfl⟩
    rw [hz y hy, zero_div]

/-- C5: after `build_index` on the fallback backend, the stored embedding
matrix is the row-normalized stack; every row whose original vector is not
all-zero has L2 norm exactly 1, every all-zero row is divided by the clamped
denominator `1e-9` and stays at zero magnitude, and the division is never by
zero (the clamped denominator is nonzero). -/
theorem fallback_rows_unit_norm (ext : Deps) (e : SearchEngine) (force : Bool)
    (hf : e.use_faiss = false) (hne : e.doc_texts ≠ []) :
    ∃ res, e.build_index ext force = Except.ok res ∧
      res.1.embeddings =
        some ((embListOf ext force e.cache e.doc_texts).map normalizeRowFallback) ∧
      ∀ v ∈ embListOf ext force e.cache e.doc_texts,
        fallbackDenom v ≠ 0 ∧
        ((¬ ∀ x ∈ v, x = 0) → l2norm (normalizeRowFallback v) = 1) ∧
        ((∀ x ∈ v, x = 0) → normalizeRowFallback v = v.map (fun x => x / eps1e9) ∧
          l2norm (normalizeRowFallback v) = 0) := by
  have hemb : ¬ ((embListOf ext force e.cache e.doc_texts).isEmpty = true) := by
    unfold embListOf
    simpa [List.isEmpty_iff] using hne
  rcases hsplit : e.build_index ext force with er | res
  · exfalso
    unfold SearchEngine.build_index at hsplit
    simp only [] at hsplit
    split at hsplit
    · exact hemb (by assumption)
    · split at hsplit <;> cases hsplit
  · refine ⟨res, rfl, ?_, fun v _ => normalizeRowFallback_norm v⟩
    unfold SearchEngine.build_index at hsplit
    simp only [] at hsplit
    split at hsplit
    · cases hsplit
    · split at hsplit
      · rename_i hft
        rw [hf] at hft
        cases hft
      · cases hsplit
        rfl

/-- Closed witness for the C5 theorem at a concrete fallback engine with two
fresh documents. -/
theorem fallback_rows_unit_norm_witness :
    ∃ res, engFresh.build_index depsXY false = Except.ok res ∧
      res.1.embeddings =
        some ((embListOf depsXY false engFresh.cache engFresh.doc_texts).map
          normalizeRowFallback) ∧
      ∀ v ∈ embListOf depsXY false engFresh.cache engFresh.doc_texts,
        fallbackDenom v ≠ 0 ∧
        ((¬ ∀ x ∈ v, x = 0) → l2norm (normalizeRowFallback v) = 1) ∧
        ((∀ x ∈ v, x = 0) → normalizeRowFallback v = v.map (fun x => x / eps1e9) ∧
          l2norm (normalizeRowFallback v) = 0) :=
  fallback_rows_unit_norm depsXY engFresh false rfl (by simp [engFresh])

/-- C6 (amended): the query-side routine `q / (‖q‖ + 1e-9)` and the index-side
routine `q / (‖q‖ if ‖q‖ ≠ 0 else 1e-9)` both guard against division by zero
(their denominators are never zero) and agree on every all-zero vector (both
return it unchanged); but they are not the same function: on every vector with
a nonzero component the query side divides by the strictly larger denominator
`‖v‖ + 1e-9`, so the two outputs differ (they agree only up to float32
rounding, not bit-exactly). -/
theorem query_vs_index_normalization (v : Vec) :
    ((∀ x ∈ v, x = 0) → normalizeQuery v = normalizeRowFallback v) ∧
      l2norm v + eps1e9 ≠ 0 ∧ fallbackDenom v ≠ 0 ∧
      ((∃ x ∈ v, x ≠ 0) → normalizeQuery v ≠ normalizeRowFallback v) := by
  refine ⟨?_, ?_, (normalizeRowFallback_norm v).1, ?_⟩
  · intro hz
    unfold normalizeQuery normalizeRowFallback
    refine List.map_congr_left fun x hx => ?_
    rw [hz x hx, zero_div, zero_div]
  · exact (add_pos_of_nonneg_of_pos (l2norm_nonneg v) eps1e9_pos).ne'
  · rintro ⟨x, hxv, hx⟩ heq
    have hpos : 0 < l2norm v :=
      l2norm_pos_of_ne v fun hall => hx (hall x hxv)
    obtain ⟨⟨i, hi⟩, hg⟩ := List.get_of_mem hxv
    have hq : (normalizeQuery v).get? i = some (x / (l2norm v + eps1e9)) := by
      unfold normalizeQuery
      rw [List.get?_map, List.get?_eq_get hi, hg]
      rfl
    have hr : (normalizeRowFallback v).get? i = some (x / l2norm v) := by
      unfold normalizeRowFallback fallbackDenom
      rw [List.get?_map, List.get?_eq_get hi, hg, if_neg hpos.ne']
      rfl
    rw [heq, hr] at hq
    have hdiv : x / l2norm v = x / (l2norm v + eps1e9) := Option.some.inj hq
    have hden : l2norm v = l2norm v + eps1e9 := by
      have h1 : l2norm v + eps1e9 ≠ 0 :=
        (add_pos_of_nonneg_of_pos (l2norm_nonneg v) eps1e9_pos).ne'
      rw [div_eq_div_iff hpos.ne' h1] at hdiv
      exact (mul_left_cancel₀ hx hdiv).symm
    exact eps1e9_pos.ne' (by linarith)

/-- Closed witness for the C6 theorem: the two routines agree on the zero
vector and differ on the vector (3, 4). -/
theorem query_vs_index_normalization_witness :
    normalizeQuery [0, 0] = normalizeRowFallback [0, 0] ∧
      normalizeQuery [3, 4] ≠ normalizeRowFallback [3, 4] := by
  constructor
  · exact (query_vs_index_normalization [0, 0]).1 (by norm_num)
  · exact (query_vs_index_normalization [3, 4]).2.2.2 ⟨3, by norm_num, by norm_num⟩

/-- C6 counterexample to the claim as stated: the query-side and index-side
normalization routines are not the same function — they disagree already on
the concrete vector (2, 0), whose norm the index side divides by exactly while
the query side divides by norm + 1e-9. -/
theorem query_vs_index_normalization_counterexample :
    normalizeQuery [2, 0] ≠ normalizeRowFallback [2, 0] := by
  have h2 : l2norm [2, 0] = 2 := by
    have hsq : l2normSq [2, 0] = 4 := by
      unfold l2normSq
      norm_num
    unfold l2norm
    rw [hsq, show (4 : ℝ) = 2 ^ 2 by norm_num, Real.sqrt_sq (by norm_num)]
  intro heq
  have h0 := congrArg (fun l => l.get? 0) heq
  unfold normalizeQuery normalizeRowFallback fallbackDenom at h0
  simp only [h2, List.get?_map] at h0
  rw [if_neg (by norm_num)] at h0
  simp only [List.get?] at h0
  have : (2 : ℝ) / (2 + eps1e9) = 2 / 2 := by
    simpa using h0
  have hne : (2 : ℝ) + eps1e9 ≠ 0 := by
    have := eps1e9_pos
    positivity
  rw [div_eq_div_iff hne (by norm_num : (2:ℝ) ≠ 0)] at this
  have heps := eps1e9_pos
  nlinarith

/-! Lemmas for the top-k clamping claim. -/

theorem map_getD_range {α : Type} (l : List α) (d : α) :
    (List.range l.length).map (fun i => l.getD i d) = l := by
  induction l with
  | nil => simp
  | cons a t ih =>
    rw [List.length_cons, List.range_succ_eq_map, List.map_cons, List.map_map]
    have hcomp : ((fun i => (a :: t).getD i d) ∘ Nat.succ) = fun i => t.getD i d := by
      funext i
      simp
    rw [show (a :: t).getD 0 d = a from rfl, hcomp, ih]

theorem pyGet_ofNat {α : Type} (l : List α) (n : ℕ) : pyGet l (Int.ofNat n) = l.get? n := by
  unfold pyGet
  rw [if_pos (show (0 : ℤ) ≤ Int.ofNat n from Int.natCast_nonneg n)]
  simp

theorem pySlice_all {α : Type} (l : List α) (k : ℤ) (h0 : 0 ≤ k)
    (h : (l.length : ℤ) ≤ k) : pySlice l k = l := by
  unfold pySlice
  rw [if_pos h0]
  apply List.take_of_length_le
  omega

theorem argsortDesc_perm (sims : List ℝ) : List.Perm (argsortDesc sims) (List.range sims.length) :=
  List.perm_insertionSort _ _

theorem buildResults_ok (ext : Deps) (e : SearchEngine) (q_tokens : List String)
    (idxs : List ℕ) (scores : List ℝ)
    (hlen : scores.length = idxs.length)
    (hrange : ∀ i ∈ idxs, i < e.doc_ids.length)
    (hlook : ∀ d ∈ e.doc_ids, (dictGet e.doc_texts d).isSome = true) :
    ∃ rs, buildResults ext e q_tokens ((idxs.map Int.ofNat).zip scores) =
        Except.ok rs ∧
      rs.map (fun r => r.doc_id) = idxs.map (fun i => e.doc_ids.getD i "") := by
  induction idxs generalizing scores with
  | nil => exact ⟨[], rfl, rfl⟩
  | cons i rest ih =>
    rcases scores with _ | ⟨s, srest⟩
    · cases hlen
    · have hi : i < e.doc_ids.length := hrange i (List.mem_cons_self _ _)
      have hget : e.doc_ids.get? i = some (e.doc_ids.get ⟨i, hi⟩) := List.get?_eq_get hi
      have hd : e.doc_ids.get ⟨i, hi⟩ ∈ e.doc_ids := List.get_mem _ _ _
      have hsome := hlook _ hd
      rcases htext : dictGet e.doc_texts (e.doc_ids.get ⟨i, hi⟩) with _ | text
      · rw [htext] at hsome
        cases hsome
      · obtain ⟨rs, hrs, hmap⟩ := ih srest (by simpa using hlen)
          (fun j hj => hrange j (List.mem_cons_of_mem _ hj))
        refine ⟨mkResult ext q_tokens (e.doc_ids.get ⟨i, hi⟩) text s :: rs, ?_, ?_⟩
        · rw [List.map_cons, List.zip_cons_cons]
          unfold buildResults
          rw [pyGet_ofNat, hget]
          simp only [htext, hrs]
        · rw [List.map_cons, List.map_cons, hmap]
          have hgd : e.doc_ids.getD i "" = e.doc_ids.get ⟨i, hi⟩ := by
            rw [List.getD_eq_get?, hget]
            rfl
          rw [hgd]
          rfl

/-- C4 (amended, fallback half): on the brute-force backend, when `top_k` is
at least the number of indexed documents, search succeeds and returns exactly
the available documents: one result per indexed document, with pairwise
distinct doc_ids forming a permutation of `doc_ids` — no error, no padding,
no duplicates. (The accelerated half of the original claim is refuted by
`faiss_topk_pads_duplicates`: FAISS pads missing neighbours with label -1,
which Python's negative indexing resolves to the last document, so the caller
receives `top_k` results containing duplicates.) -/
theorem fallback_topk_clamps (ext : Deps) (e : SearchEngine) (query : String) (k : ℤ)
    (mat : List Vec)
    (hf : e.use_faiss = false)
    (hm : e.embeddings = some mat)
    (hlen : mat.length = e.doc_ids.length)
    (hnd : e.doc_ids.Nodup)
    (hlook : ∀ d ∈ e.doc_ids, (dictGet e.doc_texts d).isSome = true)
    (hk : (e.doc_ids.length : ℤ) ≤ k) :
    ∃ rs, e.search ext query k = Except.ok rs ∧
      rs.length = e.doc_ids.length ∧
      List.Perm (rs.map (fun r => r.doc_id)) e.doc_ids ∧
      (rs.map (fun r => r.doc_id)).Nodup := by
  have h0k : (0 : ℤ) ≤ k := le_trans (by positivity) hk
  set q := normalizeQuery (embedOne ext query) with hqdef
  set sims := mat.map (fun row => dot row q) with hsims
  have hsimslen : sims.length = e.doc_ids.length := by
    rw [hsims, List.length_map, hlen]
  have hperm : List.Perm (argsortDesc sims) (List.range e.doc_ids.length) := by
    rw [← hsimslen]
    exact argsortDesc_perm sims
  have hslice : pySlice (argsortDesc sims) k = argsortDesc sims := by
    apply pySlice_all _ _ h0k
    rw [hperm.length_eq, List.length_range]
    exact hk
  have hrange : ∀ i ∈ argsortDesc sims, i < e.doc_ids.length := fun i hi => by
    have := hperm.mem_iff.1 hi
    exact List.mem_range.1 this
  obtain ⟨rs, hrs, hmap⟩ := buildResults_ok ext e
    ((tokenize ext.stopwords query).dedup) (argsortDesc sims)
    ((argsortDesc sims).map (fun i => sims.getD i 0)) (by rw [List.length_map]) hrange hlook
  refine ⟨rs, ?_, ?_, ?_, ?_⟩
  · unfold SearchEngine.search
    rw [hf]
    simp only [Bool.false_eq_true, if_false, hm]
    rw [← hqdef, ← hsims, hslice, hrs]
  · have h1 := congrArg List.length hmap
    rw [List.length_map, List.length_map] at h1
    rw [h1, hperm.length_eq, List.length_range]
  · rw [hmap]
    have := hperm.map (fun i => e.doc_ids.getD i "")
    rw [map_getD_range e.doc_ids ""] at this
    exact this
  · rw [hmap]
    have hp := hperm.map (fun i => e.doc_ids.getD i "")
    rw [map_getD_range e.doc_ids ""] at hp
    exact hp.nodup_iff.2 hnd

/-- Closed witness for the C4 theorem: a fallback index of 2 documents queried
with `top_k = 5` returns exactly the 2 available documents. -/
theorem fallback_topk_clamps_witness :
    ∃ rs, engFallbackBuilt.search depsXY "q" 5 = Except.ok rs ∧
      rs.length = engFallbackBuilt.doc_ids.length ∧
      List.Perm (rs.map (fun r => r.doc_id)) engFallbackBuilt.doc_ids ∧
      (rs.map (fun r => r.doc_id)).Nodup :=
  fallback_topk_clamps depsXY engFallbackBuilt "q" 5 [[1, 0], [0, 1]] rfl rfl rfl
    (by decide) (by decide) (by decide)

/-- C4 counterexample to the claim as stated, on the accelerated backend: a
faiss index of 2 documents queried with `top_k = 3` returns 3 results — faiss
pads the missing neighbour with label -1, and Python's negative indexing turns
`doc_ids[-1]` into the last document — so the caller gets the last document
duplicated instead of exactly the 2 available documents. -/
theorem faiss_topk_pads_duplicates :
    (engFaissBuilt.search depsXY "q" 3).map (fun rs => rs.map fun r => r.doc_id) =
        Except.ok ["a", "b", "b"] ∧
      engFaissBuilt.doc_ids = ["a", "b"] := by
  refine ⟨?_, rfl⟩
  have he : embedOne depsXY "q" = [0, 0] := by
    unfold embedOne
    rw [if_neg (by decide)]
    rfl
  have hq : normalizeQuery (embedOne depsXY "q") = [0, 0] := by
    rw [he]
    unfold normalizeQuery
    simp
  have hsims : ([[1, 0], [0, 1]] : List Vec).map
      (fun row => dot row (normalizeQuery (embedOne depsXY "q"))) = [0, 0] := by
    rw [hq]
    norm_num [dot]
  have hsort : argsortDesc [0, 0] = [0, 1] := by
    unfold argsortDesc
    norm_num [List.range_succ, List.insertionSort, List.orderedInsert]
  have hidx : faissTopkIdx [0, 0] 3 = [Int.ofNat 0, Int.ofNat 1, -1] := by
    unfold faissTopkIdx
    rw [hsort]
    rfl
  have hsc : faissTopkScores [0, 0] 3 = [(0 : ℝ), 0, faissPadScore] := by
    unfold faissTopkScores
    rw [hsort]
    norm_num
  unfold SearchEngine.search
  simp only [show engFaissBuilt.use_faiss = true from rfl, if_true,
    show engFaissBuilt.index = some [[1, 0], [0, 1]] from rfl]
  rw [if_neg (by decide : ¬ (3 : ℤ) ≤ 0)]
  rw [show (3 : ℤ).toNat = 3 from rfl, hsims, hidx, hsc]
  simp only [List.zip_cons_cons, List.zip_nil_right]
  simp only [buildResults,
    show pyGet engFaissBuilt.doc_ids (Int.ofNat 0) = some "a" from rfl,
    show pyGet engFaissBuilt.doc_ids (Int.ofNat 1) = some "b" from rfl,
    show pyGet engFaissBuilt.doc_ids (-1) = some "b" from rfl,
    show dictGet engFaissBuilt.doc_texts "a" = some "x" from rfl,
    show dictGet engFaissBuilt.doc_texts "b" = some "y" from rfl]
  simp [mkResult, Except.map]

/-- The state used in `faiss_topk_pads_duplicates` is reachable: building the
fresh faiss-backend engine produces exactly `engFaissBuilt`, with one batched
provider call for the two miss texts. -/
theorem engFaissBuilt_reachable :
    engFreshFaiss.build_index depsXY false = Except.ok (engFaissBuilt, [["x", "y"]]) := by
  have h1 : l2norm [(1 : ℝ), 0] = 1 := by
    have hsq : l2normSq [(1 : ℝ), 0] = 1 := by
      unfold l2normSq
      norm_num
    unfold l2norm
    rw [hsq, Real.sqrt_one]
  have h2 : l2norm [(0 : ℝ), 1] = 1 := by
    have hsq : l2normSq [(0 : ℝ), 1] = 1 := by
      unfold l2normSq
      norm_num
    unfold l2norm
    rw [hsq, Real.sqrt_one]
  have hn1 : normalizeFaissRow [(1 : ℝ), 0] = [1, 0] := by
    unfold normalizeFaissRow
    rw [h1]
    norm_num
  have hn2 : normalizeFaissRow [(0 : ℝ), 1] = [0, 1] := by
    unfold normalizeFaissRow
    rw [h2]
    norm_num
  unfold SearchEngine.build_index
  simp only [engFreshFaiss, engFresh]
  norm_num [embListOf, missDocs, validCached, CacheManager.get, CacheManager.upsert,
    SearchEngine.metaFilename, dictGet, depsXY, hn1, hn2, engFaissBuilt]
  refine ⟨?_, ⟨?_, by decide⟩, by decide⟩
  · rw [if_neg (by decide)]
    exact hn2
  · rfl
